import Mathlib

/-!
Shallow embedding of `src/finetuning_scripts/finetune_tabpfn_main.py`
(repository `finetune_tabpfn_v2`).

The fine-tuning orchestrator `fine_tune_tabpfn` is a control loop around
external numeric components (the transformer forward pass, the metric, the
data loader, the wall clock).  Those externals are modelled as oracles: each
loop iteration reads one `StepOracle` describing what the environment did
during that step (the computed batch loss, whether the gradient scaler's
scale decreased after the optimizer step, the gradient norm, the device
utilization, the validation loss a validation pass would return, and the
wall-clock time elapsed when the loop's time check runs).  Losses and times
are rationals.  Everything the loop itself computes — cadence flags, loss
scaling for gradient accumulation, skip handling, the validation
carry-forward, best-model tracking, checkpoint writes, the time forecast,
the ledger of per-step records and the final report — is translated
directly from the source.
-/

namespace FinetuneTabPFN

/-- Modelled from the spec: the per-step telemetry record
`FineTuneStepResults` lives in `finetuning_scripts/data_classes.py`, which is
not among the sources.  Its fields are exactly those the orchestrator
constructs at lines 287-305 and 635-645 of the main file, following spec
section 3 (StepResult). -/
structure FineTuneStepResults where
  step_index : ℕ
  training_loss : ℚ
  validation_loss : ℚ
  best_validation_loss : ℚ
  best_validation_score : ℚ
  patience_left : ℤ
  time_left : ℚ
  device_utilization : ℚ
  step_with_update : Bool
  optimizer_step_skipped : Bool
  grad_norm_before_clip : ℚ

/-- Modelled from the spec: `FineTuneStepResults.register_meta_state` (in the
missing `data_classes` module) fills the orchestrator-level fields of a step's
record, leaving the step-executor fields (training loss, utilization, update
and skip flags, gradient norm) unchanged. -/
def FineTuneStepResults.register_meta_state (r : FineTuneStepResults)
    (step_index : ℕ) (validation_loss best_validation_loss best_validation_score : ℚ)
    (patience_left : ℤ) (time_left : ℚ) : FineTuneStepResults :=
  { r with
    step_index := step_index
    validation_loss := validation_loss
    best_validation_loss := best_validation_loss
    best_validation_score := best_validation_score
    patience_left := patience_left
    time_left := time_left }

/-- Modelled from the spec: the `AdaptiveES` early-stopping policy lives in
`finetuning_scripts/training_utils/ag_early_stopping.py`, which is not among
the sources.  State per spec section 3 (EarlyStoppingState): configuration
plus rounds-since-last-improvement and the best-round index. -/
structure AdaptiveES where
  adaptive_rate : ℚ
  adaptive_offset : ℕ
  min_patience : ℕ
  max_patience : ℕ
  rounds_since_improvement : ℕ
  best_round : ℕ

/-- Modelled from the spec: the allowed patience at round `r` — a
monotonically non-decreasing function of `r`, clamped to
`[min_patience, max_patience]`, parameterized by `adaptive_rate` and
`adaptive_offset` (spec section 4.1). -/
def AdaptiveES.patienceAt (es : AdaptiveES) (r : ℕ) : ℕ :=
  min es.max_patience
    (max es.min_patience
      (es.adaptive_offset + ((es.adaptive_rate.num * r).fdiv es.adaptive_rate.den).toNat))

/-- Modelled from the spec: `update(round, is_best) -> stop_now` — on a best
round, reset rounds-since-improvement and record the round; otherwise
increment it; stop when rounds-since-improvement exceeds the allowed patience
for that round (spec section 4.1). -/
def AdaptiveES.update (es : AdaptiveES) (cur_round : ℕ) (is_best : Bool) :
    AdaptiveES × Bool :=
  let es2 :=
    if is_best then
      { es with rounds_since_improvement := 0, best_round := cur_round }
    else
      { es with rounds_since_improvement := es.rounds_since_improvement + 1 }
  (es2, decide (es2.patienceAt cur_round < es2.rounds_since_improvement))

/-- Modelled from the spec: `remaining_patience(round)` — how many further
non-improving rounds the policy would tolerate at this round. -/
def AdaptiveES.remaining_patience (es : AdaptiveES) (cur_round : ℕ) : ℤ :=
  (es.patienceAt cur_round : ℤ) - (es.rounds_since_improvement : ℤ)

/-- Abstract environment of one loop iteration: what the external
collaborators (model forward/backward, gradient scaler, CUDA, the metric's
validation pass, the wall clock) produce during that step.  The control
logic under verification consumes these values; it never produces them. -/
structure StepOracle where
  /-- Result of `compute_loss` on this step's batch (line 606). -/
  batch_loss : ℚ
  /-- Whether `scaler.get_scale()` decreased across `scaler.step; scaler.update`
  (lines 627-630), i.e. the overflow signal that marks the step skipped. -/
  scale_decreased : Bool
  /-- `clip_grad_norm_` result (line 620). -/
  grad_norm : ℚ
  /-- `torch.cuda.utilization()` (line 639). -/
  device_util : ℚ
  /-- What `validate_tabpfn_fn(model)` returns if validation runs this step
  (line 374). -/
  val_loss : ℚ
  /-- `time.time() - st_time` when the loop's time check runs (line 394). -/
  time_spent : ℚ

/-- The subset of `FineTuneSetup` (built by `_setup_tuning`, lines 648-685)
that the loop control logic reads. -/
structure FineTuneSetup where
  update_every_n_steps : ℕ
  validate_every_n_steps : ℕ
  max_steps : ℕ
  batch_size : ℕ
  data_loader_workers : ℕ

/-- `update_now = (step_i + 1) % fts.update_every_n_steps == 0` (line 343). -/
def updateNow (n step_i : ℕ) : Bool := (step_i + 1) % n == 0

/-- `validate_now = (step_i + 1) % fts.validate_every_n_steps == 0` (line 344). -/
def validateNow (v step_i : ℕ) : Bool := (step_i + 1) % v == 0

/-- `gradient_accumulation_steps = fts.update_every_n_steps if
fts.update_every_n_steps > 1 else None` (lines 336-338). -/
def gradAccumOf (n : ℕ) : Option ℕ := if 1 < n then some n else none

/-- The loss value handed to the (scaled) backward pass in `_fine_tune_step`:
the computed batch loss, divided by the accumulation width when gradient
accumulation is active (lines 606-612). -/
def fineTuneStepLoss (batch_loss : ℚ) (gradient_accumulation_steps : Option ℕ) : ℚ :=
  match gradient_accumulation_steps with
  | none => batch_loss
  | some g => batch_loss / (g : ℚ)

/-- `_fine_tune_step` (lines 540-645): the step executor's contribution to the
step's record.  Device moves, the forward pass, the backward pass and the
optimizer/scaler mutations are environment effects; the record built at
lines 635-645 is what the orchestrator observes. -/
def fine_tune_step (o : StepOracle) (gradient_accumulation_steps : Option ℕ)
    (step_with_update : Bool) (device_is_gpu : Bool) : FineTuneStepResults :=
  let loss := fineTuneStepLoss o.batch_loss gradient_accumulation_steps
  { step_index := 0
    training_loss :=
      match gradient_accumulation_steps with
      | none => loss
      | some g => loss * (g : ℚ)
    validation_loss := 0
    best_validation_loss := 0
    best_validation_score := 0
    patience_left := 0
    time_left := 0
    device_utilization := if device_is_gpu then o.device_util else 0
    step_with_update := step_with_update
    optimizer_step_skipped := step_with_update && o.scale_decreased
    grad_norm_before_clip := if step_with_update then o.grad_norm else -1 }

/-- Orchestrator state across loop iterations, plus observation traces.
`ledger` is `step_results_over_time`; `saves` records the validation loss
current at each `torch.save` of the checkpoint file; `esCalls`,
`patienceCalls` and `validatedSteps` record the loop's calls into
`adaptive_es.update`, `adaptive_es.remaining_patience` and
`validate_tabpfn_fn` (step index, round argument, and for `update` the
`is_best` argument). -/
structure LoopState where
  ledger : List FineTuneStepResults
  best_validation_loss : ℚ
  es : AdaptiveES
  skipped_steps : ℕ
  early_stop_no_imp : Bool
  early_stop_no_time : Bool
  saves : List ℚ
  esCalls : List (ℕ × ℕ × Bool)
  patienceCalls : List (ℕ × ℕ)
  validatedSteps : List ℕ

/-- `step_results_over_time[-1].validation_loss` (line 391); the ledger is
never empty once seeded. -/
def lastValidationLoss (s : LoopState) : ℚ :=
  match s.ledger.getLast? with
  | some r => r.validation_loss
  | none => 0

/-- `step_results_over_time[0].training_loss = step_results.training_loss`
(line 426): overwrite the head record's training loss. -/
def backfillHead (tl : ℚ) : List FineTuneStepResults → List FineTuneStepResults
  | [] => []
  | r0 :: rest => { r0 with training_loss := tl } :: rest

/-- Ledger update of one iteration: append the step's record (line 422), and
on step 1 backfill the index-0 record's training loss with this step's
training loss (lines 424-426). -/
def appendStep (step_i : ℕ) (stepRec : FineTuneStepResults)
    (ledger : List FineTuneStepResults) : List FineTuneStepResults :=
  if step_i = 1 then backfillHead stepRec.training_loss (ledger ++ [stepRec])
  else ledger ++ [stepRec]

/-- One iteration of the fine-tuning loop body (lines 341-432), for step
`step_i` with environment `o`.  Returns the successor state and whether the
loop breaks (`early_stop_no_imp or early_stop_no_time`, line 431). -/
def loopIter (fts : FineTuneSetup) (score : ℚ → ℚ) (time_limit : ℚ)
    (device_is_gpu : Bool) (s : LoopState) (step_i : ℕ) (o : StepOracle) :
    LoopState × Bool :=
  let update_now := updateNow fts.update_every_n_steps step_i
  let validate_now0 := validateNow fts.validate_every_n_steps step_i
  let step_results :=
    fine_tune_step o (gradAccumOf fts.update_every_n_steps) update_now device_is_gpu
  let skipped := step_results.optimizer_step_skipped
  let validate_now := if skipped then false else validate_now0
  let skipped_steps := if skipped then s.skipped_steps + 1 else s.skipped_steps
  let cur_round := (step_i - skipped_steps) / fts.update_every_n_steps
  let time_left := time_limit - o.time_spent
  let no_time :=
    decide (time_left ≤ 0) || decide (time_left ≤ o.time_spent / (step_i : ℚ) * (11/10))
  if validate_now then
    let validation_loss := o.val_loss
    let is_best := decide (validation_loss < s.best_validation_loss)
    let esPair := s.es.update cur_round is_best
    let best2 := if is_best then validation_loss else s.best_validation_loss
    let stepRec := step_results.register_meta_state step_i validation_loss best2
      (score best2) (esPair.1.remaining_patience cur_round) time_left
    (⟨appendStep step_i stepRec s.ledger,
      best2,
      esPair.1,
      skipped_steps,
      esPair.2,
      no_time,
      if is_best then s.saves ++ [validation_loss] else s.saves,
      s.esCalls ++ [(step_i, cur_round, is_best)],
      s.patienceCalls ++ [(step_i, cur_round)],
      s.validatedSteps ++ [step_i]⟩,
      esPair.2 || no_time)
  else
    let validation_loss := lastValidationLoss s
    let stepRec := step_results.register_meta_state step_i validation_loss
      s.best_validation_loss (score s.best_validation_loss)
      (s.es.remaining_patience cur_round) time_left
    ({ s with
        ledger := appendStep step_i stepRec s.ledger
        skipped_steps := skipped_steps
        early_stop_no_imp := false
        early_stop_no_time := no_time
        patienceCalls := s.patienceCalls ++ [(step_i, cur_round)] },
      no_time)

/-- The fine-tuning loop (lines 341-432): consume the data loader's batches
in order starting at step index 1, breaking when an iteration signals
early stopping.  The oracle list stands for the finite batch sequence the
loader yields (at most `max_steps` batches). -/
def runLoop (fts : FineTuneSetup) (score : ℚ → ℚ) (time_limit : ℚ)
    (device_is_gpu : Bool) : LoopState → ℕ → List StepOracle → LoopState
  | s, _, [] => s
  | s, step_i, o :: rest =>
    let p := loopIter fts score time_limit device_is_gpu s step_i o
    if p.2 then p.1
    else runLoop fts score time_limit device_is_gpu p.1 (step_i + 1) rest

/-- Orchestrator state right before the loop (lines 277-340): baseline
validation (`best_validation_loss`), `adaptive_es.update(cur_round=0,
is_best=True)`, the seeded index-0 ledger record (lines 287-305), and the
unconditional initial checkpoint write (lines 306-311). -/
def initState (es0 : AdaptiveES) (score : ℚ → ℚ) (time_limit : ℚ)
    (init_val_loss : ℚ) (device_is_gpu : Bool) (init_device_util : ℚ) : LoopState :=
  let esPair := es0.update 0 true
  { ledger := [{
      step_index := 0
      training_loss := 0
      validation_loss := init_val_loss
      best_validation_loss := init_val_loss
      best_validation_score := score init_val_loss
      patience_left := esPair.1.remaining_patience 0
      time_left := time_limit
      device_utilization := if device_is_gpu then init_device_util else 0
      step_with_update := false
      optimizer_step_skipped := false
      grad_norm_before_clip := -1 }]
    best_validation_loss := init_val_loss
    es := esPair.1
    skipped_steps := 0
    early_stop_no_imp := false
    early_stop_no_time := false
    saves := [init_val_loss]
    esCalls := []
    patienceCalls := []
    validatedSteps := [] }

/-- Setup plus loop: the part of `fine_tune_tabpfn` the claims read.  The
`use_sklearn_interface_for_validation` / `model_for_validation` check
(lines 252-259) runs during setup, before the baseline validation, the
initial checkpoint write and the loop. -/
def fine_tune_tabpfn (use_sklearn_interface_for_validation : Bool)
    (model_for_validation : Option Bool) (es0 : AdaptiveES) (fts : FineTuneSetup)
    (score : ℚ → ℚ) (time_limit : ℚ) (init_val_loss : ℚ) (device_is_gpu : Bool)
    (init_device_util : ℚ) (oracles : List StepOracle) : Except String LoopState :=
  if use_sklearn_interface_for_validation &&
      (match model_for_validation with
       | some fitted => fitted
       | none => false) then
    Except.error "model_for_validation must NOT be fitted"
  else
    Except.ok (runLoop fts score time_limit device_is_gpu
      (initState es0 score time_limit init_val_loss device_is_gpu init_device_util)
      1 oracles)

/-- Termination reason as in `_tore_down_tuning` (lines 699-703): both flags
are examined in sequence, so the no-time reason overwrites the
no-improvement one. -/
def esReason (early_stop_no_imp early_stop_no_time : Bool) : Option String :=
  if early_stop_no_time then some "Early stopping due no time."
  else if early_stop_no_imp then
    some "Early stopping due to no improvement (AdaptiveES)."
  else none

/-- `np.argmin`: index of the first minimum of a list (0 on the empty list). -/
def npArgminAux : ℕ → ℚ → ℕ → List ℚ → ℕ
  | bi, _, _, [] => bi
  | bi, bv, i, x :: xs =>
    if x < bv then npArgminAux i x (i + 1) xs else npArgminAux bi bv (i + 1) xs

/-- `np.argmin` over a list of rationals (line 708). -/
def npArgmin : List ℚ → ℕ
  | [] => 0
  | x :: xs => npArgminAux 0 x 1 xs

/-- The summary values `_tore_down_tuning` reports (lines 688-719). -/
structure FineTuneReport where
  best_step : ℕ
  total_steps : ℕ
  initial_validation_loss : ℚ
  best_validation_loss : ℚ
  es_reason : Option String

/-- `_tore_down_tuning` (lines 688-719): the final report computed from the
ledger and the termination flags. -/
def tore_down_tuning (s : LoopState) : FineTuneReport :=
  { best_step := npArgmin (s.ledger.map (fun r => r.validation_loss))
    total_steps := s.ledger.length
    initial_validation_loss :=
      match s.ledger.head? with
      | some r => r.validation_loss
      | none => 0
    best_validation_loss :=
      match s.ledger.getLast? with
      | some r => r.best_validation_loss
      | none => 0
    es_reason := esReason s.early_stop_no_imp s.early_stop_no_time }

/-- A full run of the orchestrator loop from the post-setup state. -/
def finalState (es0 : AdaptiveES) (fts : FineTuneSetup) (score : ℚ → ℚ)
    (time_limit : ℚ) (init_val_loss : ℚ) (device_is_gpu : Bool)
    (init_device_util : ℚ) (oracles : List StepOracle) : LoopState :=
  runLoop fts score time_limit device_is_gpu
    (initState es0 score time_limit init_val_loss device_is_gpu init_device_util)
    1 oracles

/-- Ledger read with a default record, for stating indexed invariants. -/
def dummyRec : FineTuneStepResults :=
  { step_index := 0, training_loss := 0, validation_loss := 0,
    best_validation_loss := 0, best_validation_score := 0, patience_left := 0,
    time_left := 0, device_utilization := 0, step_with_update := false,
    optimizer_step_skipped := false, grad_norm_before_clip := 0 }

/-- The ledger entry at index `j` (total: `dummyRec` out of range). -/
def ledgerEntry (s : LoopState) (j : ℕ) : FineTuneStepResults :=
  s.ledger.getD j dummyRec

/-- Number of skipped-step records among ledger indices `0..step`
(the "accumulated count of skipped steps" up to and including that step). -/
def skippedUpTo (ledger : List FineTuneStepResults) (step : ℕ) : ℕ :=
  ((ledger.take (step + 1)).filter (fun r => r.optimizer_step_skipped)).length

/-- The most recent validating step at or before `j` (0 — the baseline —
when no step at or before `j` validated). -/
def lastValidating (vs : List ℕ) (j : ℕ) : ℕ :=
  (vs.filter (fun x => x ≤ j)).foldr max 0

/-- The skip flag of step `i`'s executed step (line 364), as the loop body
computes it. -/
def stepSkipped (fts : FineTuneSetup) (gpu : Bool) (i : ℕ) (o : StepOracle) : Bool :=
  (fine_tune_step o (gradAccumOf fts.update_every_n_steps)
    (updateNow fts.update_every_n_steps i) gpu).optimizer_step_skipped

/-- Whether step `i` validates: the cadence flag of line 344 forced to
`False` when the step was skipped (line 366). -/
def stepValidates (fts : FineTuneSetup) (gpu : Bool) (i : ℕ) (o : StepOracle) : Bool :=
  if stepSkipped fts gpu i o then false else validateNow fts.validate_every_n_steps i

/-- The skip counter after step `i` (line 367). -/
def newSkipped (fts : FineTuneSetup) (gpu : Bool) (s : LoopState) (i : ℕ)
    (o : StepOracle) : ℕ :=
  if stepSkipped fts gpu i o then s.skipped_steps + 1 else s.skipped_steps

/-- The skip-adjusted round number `(step_i - skipped_steps) //
update_every_n_steps` the loop passes to the early-stopping policy
(lines 379 and 409). -/
def curRound (fts : FineTuneSetup) (gpu : Bool) (s : LoopState) (i : ℕ)
    (o : StepOracle) : ℕ :=
  (i - newSkipped fts gpu s i o) / fts.update_every_n_steps

/-- Checkpoint-trace invariant: the first save is the baseline one, the
saved losses strictly decrease, and the last save's loss is the best loss
known to the loop. -/
def SavesInv (v0 : ℚ) (s : LoopState) : Prop :=
  s.saves.head? = some v0 ∧
  List.Chain' (fun a b => b < a) s.saves ∧
  s.saves.getLast? = some s.best_validation_loss

/-- Run invariant tying the loop's counters and call traces to the ledger:
the ledger is nonempty, `skipped_steps` counts exactly the skipped records,
the baseline record is not skipped, validated steps are in-range un-skipped
steps, every round number passed to `adaptive_es.update` or
`remaining_patience` is `(step - skipped-so-far) / update_every_n_steps`,
and a non-validating step's record carries the previous record's validation
loss forward. -/
def TraceInv (n : ℕ) (s : LoopState) : Prop :=
  1 ≤ s.ledger.length ∧
  s.skipped_steps = (s.ledger.filter (fun r => r.optimizer_step_skipped)).length ∧
  (ledgerEntry s 0).optimizer_step_skipped = false ∧
  (∀ j ∈ s.validatedSteps,
    1 ≤ j ∧ j < s.ledger.length ∧ (ledgerEntry s j).optimizer_step_skipped = false) ∧
  (∀ p ∈ s.patienceCalls,
    1 ≤ p.1 ∧ p.1 < s.ledger.length ∧ p.2 = (p.1 - skippedUpTo s.ledger p.1) / n) ∧
  (∀ e ∈ s.esCalls,
    1 ≤ e.1 ∧ e.1 < s.ledger.length ∧ e.2.1 = (e.1 - skippedUpTo s.ledger e.1) / n) ∧
  (∀ j, 1 ≤ j → j < s.ledger.length → ¬ j ∈ s.validatedSteps →
    (ledgerEntry s j).validation_loss = (ledgerEntry s (j - 1)).validation_loss)

/-- Sample early-stopping configuration for concrete runs. -/
def sampleES : AdaptiveES := ⟨0, 0, 1, 5, 0, 0⟩

/-- Identity error-to-score conversion, for concrete runs. -/
def idScore : ℚ → ℚ := fun x => x

/-- Sample per-step environment: batch loss 1, no scale decrease, gradient
norm 1, utilization 0, validation loss 5, ten seconds elapsed. -/
def sampleOracle : StepOracle := ⟨1, false, 1, 0, 5, 10⟩

/-- Sample setup: update every step, validate every 5 steps. -/
def sampleFTS : FineTuneSetup := ⟨1, 5, 10, 1, 1⟩

/-- Sample post-setup state: time limit 100, baseline validation loss 7. -/
def sampleInit : LoopState := initState sampleES idScore 100 7 false 0

/-! ### Ledger bookkeeping lemmas -/

theorem backfillHead_length (t : ℚ) (l : List FineTuneStepResults) :
    (backfillHead t l).length = l.length := by
  cases l <;> simp [backfillHead]

theorem backfillHead_getD_pos (t : ℚ) (l : List FineTuneStepResults) (j : ℕ)
    (h : 1 ≤ j) : (backfillHead t l).getD j dummyRec = l.getD j dummyRec := by
  cases l with
  | nil => simp [backfillHead]
  | cons r0 rest =>
    cases j with
    | zero => omega
    | succ k => simp [backfillHead]

theorem backfillHead_getD_zero (t : ℚ) (r0 : FineTuneStepResults)
    (rest : List FineTuneStepResults) :
    (backfillHead t (r0 :: rest)).getD 0 dummyRec = { r0 with training_loss := t } := by
  simp [backfillHead]

theorem appendStep_length (i : ℕ) (r : FineTuneStepResults)
    (l : List FineTuneStepResults) : (appendStep i r l).length = l.length + 1 := by
  unfold appendStep
  split <;> simp [backfillHead_length]

theorem appendStep_getD_mid (i : ℕ) (r : FineTuneStepResults)
    (l : List FineTuneStepResults) (j : ℕ) (h1 : 1 ≤ j) (h2 : j < l.length) :
    (appendStep i r l).getD j dummyRec = l.getD j dummyRec := by
  unfold appendStep
  split
  · rw [backfillHead_getD_pos _ _ _ h1, List.getD_append _ _ _ _ h2]
  · rw [List.getD_append _ _ _ _ h2]

theorem appendStep_getD_last (i : ℕ) (r : FineTuneStepResults)
    (l : List FineTuneStepResults) (h : 0 < l.length) :
    (appendStep i r l).getD l.length dummyRec = r := by
  have hlast : (l ++ [r]).getD l.length dummyRec = r := by
    rw [List.getD_append_right _ _ _ _ (le_refl _)]
    simp
  unfold appendStep
  split
  · rw [backfillHead_getD_pos _ _ _ h, hlast]
  · exact hlast

theorem appendStep_getD_zero (i : ℕ) (r : FineTuneStepResults)
    (l : List FineTuneStepResults) (h : 0 < l.length) :
    ((appendStep i r l).getD 0 dummyRec).validation_loss =
      (l.getD 0 dummyRec).validation_loss ∧
    ((appendStep i r l).getD 0 dummyRec).optimizer_step_skipped =
      (l.getD 0 dummyRec).optimizer_step_skipped := by
  cases l with
  | nil => simp at h
  | cons r0 rest =>
    unfold appendStep
    split
    · rw [show (r0 :: rest) ++ [r] = r0 :: (rest ++ [r]) from rfl, backfillHead_getD_zero]
      constructor <;> rfl
    · constructor <;> rfl

theorem skippedUpTo_backfillHead (t : ℚ) (l : List FineTuneStepResults) (step : ℕ) :
    skippedUpTo (backfillHead t l) step = skippedUpTo l step := by
  cases l with
  | nil => rfl
  | cons r0 rest =>
    have hproj : ({ r0 with training_loss := t } :
        FineTuneStepResults).optimizer_step_skipped = r0.optimizer_step_skipped := rfl
    simp only [backfillHead, skippedUpTo, List.take_succ_cons, List.filter_cons, hproj]
    split <;> simp

theorem skippedUpTo_appendStep (i : ℕ) (r : FineTuneStepResults)
    (l : List FineTuneStepResults) (step : ℕ) (h : step < l.length) :
    skippedUpTo (appendStep i r l) step = skippedUpTo l step := by
  have htake : (l ++ [r]).take (step + 1) = l.take (step + 1) :=
    List.take_append_of_le_length (by omega)
  unfold appendStep
  split
  · rw [skippedUpTo_backfillHead]
    unfold skippedUpTo
    rw [htake]
  · unfold skippedUpTo
    rw [htake]

theorem skippedUpTo_of_length_le (l : List FineTuneStepResults) (step : ℕ)
    (h : l.length ≤ step + 1) :
    skippedUpTo l step = (l.filter (fun x => x.optimizer_step_skipped)).length := by
  unfold skippedUpTo
  rw [List.take_of_length_le h]

theorem filter_skipped_cond (r : FineTuneStepResults) :
    (List.filter (fun x => x.optimizer_step_skipped) [r]).length =
      (if r.optimizer_step_skipped then 1 else 0) := by
  simp only [List.filter_cons, List.filter_nil]
  split <;> simp_all

theorem filter_skipped_appendStep_length (i : ℕ) (r : FineTuneStepResults)
    (l : List FineTuneStepResults) :
    ((appendStep i r l).filter (fun x => x.optimizer_step_skipped)).length =
      (l.filter (fun x => x.optimizer_step_skipped)).length +
        (if r.optimizer_step_skipped then 1 else 0) := by
  have happ : ∀ l2 : List FineTuneStepResults,
      ((l2 ++ [r]).filter (fun x => x.optimizer_step_skipped)).length =
        (l2.filter (fun x => x.optimizer_step_skipped)).length +
          (if r.optimizer_step_skipped then 1 else 0) := by
    intro l2
    rw [List.filter_append, List.length_append, filter_skipped_cond r]
  unfold appendStep
  split
  · cases l with
    | nil =>
      simp only [List.nil_append, backfillHead, List.filter_nil, List.length_nil]
      rw [show ({ r with training_loss := r.training_loss } :
        FineTuneStepResults) = r from rfl]
      rw [filter_skipped_cond r]
      simp
    | cons r0 rest =>
      have hproj : ({ r0 with training_loss := r.training_loss } :
          FineTuneStepResults).optimizer_step_skipped = r0.optimizer_step_skipped := rfl
      rw [show (r0 :: rest) ++ [r] = r0 :: (rest ++ [r]) from rfl]
      simp only [backfillHead, List.filter_cons, hproj]
      have h2 := happ rest
      split <;> (simp only [List.length_cons, h2]; try omega)
  · exact happ l

/-! ### Iteration-level lemmas -/

theorem loopIter_ledger_length (fts : FineTuneSetup) (score : ℚ → ℚ) (L : ℚ)
    (gpu : Bool) (s : LoopState) (i : ℕ) (o : StepOracle) :
    ((loopIter fts score L gpu s i o).1).ledger.length = s.ledger.length + 1 := by
  simp only [loopIter]
  split
  · simp [appendStep_length]
  · split <;> simp [appendStep_length]

theorem loopIter_no_time (fts : FineTuneSetup) (score : ℚ → ℚ) (L : ℚ)
    (gpu : Bool) (s : LoopState) (i : ℕ) (o : StepOracle) :
    ((loopIter fts score L gpu s i o).1).early_stop_no_time =
      (decide (L - o.time_spent ≤ 0) ||
        decide (L - o.time_spent ≤ o.time_spent / (i : ℚ) * (11/10))) := by
  simp only [loopIter]
  split
  · rfl
  · split <;> rfl

theorem loopIter_break (fts : FineTuneSetup) (score : ℚ → ℚ) (L : ℚ)
    (gpu : Bool) (s : LoopState) (i : ℕ) (o : StepOracle) :
    (loopIter fts score L gpu s i o).2 =
      ((loopIter fts score L gpu s i o).1.early_stop_no_imp ||
        (loopIter fts score L gpu s i o).1.early_stop_no_time) := by
  simp only [loopIter]
  split
  · rfl
  · split <;> rfl

theorem loopIter_ledger_shape (fts : FineTuneSetup) (score : ℚ → ℚ) (L : ℚ)
    (gpu : Bool) (s : LoopState) (i : ℕ) (o : StepOracle) :
    ∃ r, (loopIter fts score L gpu s i o).1.ledger = appendStep i r s.ledger ∧
      r.step_index = i := by
  simp only [loopIter]
  split
  · exact ⟨_, rfl, rfl⟩
  · split
    · exact ⟨_, rfl, rfl⟩
    · exact ⟨_, rfl, rfl⟩

theorem loopIter_ledger_of_ne_one (fts : FineTuneSetup) (score : ℚ → ℚ) (L : ℚ)
    (gpu : Bool) (s : LoopState) (i : ℕ) (o : StepOracle) (h : i ≠ 1) :
    ∃ r, (loopIter fts score L gpu s i o).1.ledger = s.ledger ++ [r] := by
  obtain ⟨r, hr, _⟩ := loopIter_ledger_shape fts score L gpu s i o
  exact ⟨r, by rw [hr]; simp [appendStep, h]⟩

theorem stepValidates_not_skipped (fts : FineTuneSetup) (gpu : Bool) (i : ℕ)
    (o : StepOracle) (h : stepValidates fts gpu i o = true) :
    stepSkipped fts gpu i o = false := by
  unfold stepValidates at h
  by_cases hsk : stepSkipped fts gpu i o = true
  · rw [if_pos hsk] at h
    exact absurd h (by simp)
  · simpa using hsk

theorem loopIter_skipped_steps (fts : FineTuneSetup) (score : ℚ → ℚ) (L : ℚ)
    (gpu : Bool) (s : LoopState) (i : ℕ) (o : StepOracle) :
    (loopIter fts score L gpu s i o).1.skipped_steps = newSkipped fts gpu s i o := by
  simp only [loopIter, newSkipped, stepSkipped]
  split
  · rfl
  · split
    · rfl
    · rfl

theorem loopIter_validatedSteps (fts : FineTuneSetup) (score : ℚ → ℚ) (L : ℚ)
    (gpu : Bool) (s : LoopState) (i : ℕ) (o : StepOracle) :
    (loopIter fts score L gpu s i o).1.validatedSteps =
      (if stepValidates fts gpu i o then s.validatedSteps ++ [i]
       else s.validatedSteps) := by
  simp only [loopIter, stepValidates, stepSkipped]
  split
  · rfl
  · split
    · rfl
    · rfl

theorem loopIter_patienceCalls (fts : FineTuneSetup) (score : ℚ → ℚ) (L : ℚ)
    (gpu : Bool) (s : LoopState) (i : ℕ) (o : StepOracle) :
    (loopIter fts score L gpu s i o).1.patienceCalls =
      s.patienceCalls ++ [(i, curRound fts gpu s i o)] := by
  simp only [loopIter, curRound, newSkipped, stepSkipped]
  split
  · rfl
  · split
    · rfl
    · rfl

theorem loopIter_esCalls (fts : FineTuneSetup) (score : ℚ → ℚ) (L : ℚ)
    (gpu : Bool) (s : LoopState) (i : ℕ) (o : StepOracle) :
    (loopIter fts score L gpu s i o).1.esCalls =
      (if stepValidates fts gpu i o then
        s.esCalls ++ [(i, curRound fts gpu s i o,
          decide (o.val_loss < s.best_validation_loss))]
       else s.esCalls) := by
  simp only [loopIter, stepValidates, stepSkipped, curRound, newSkipped]
  split
  · rfl
  · split
    · rfl
    · rfl

theorem loopIter_ledger_record (fts : FineTuneSetup) (score : ℚ → ℚ) (L : ℚ)
    (gpu : Bool) (s : LoopState) (i : ℕ) (o : StepOracle) :
    ∃ r, (loopIter fts score L gpu s i o).1.ledger = appendStep i r s.ledger ∧
      r.optimizer_step_skipped = stepSkipped fts gpu i o ∧
      r.validation_loss =
        (if stepValidates fts gpu i o then o.val_loss else lastValidationLoss s) ∧
      r.step_index = i := by
  simp only [loopIter, stepValidates, stepSkipped]
  split
  · exact ⟨_, rfl, rfl, rfl, rfl⟩
  · split
    · exact ⟨_, rfl, rfl, rfl, rfl⟩
    · exact ⟨_, rfl, rfl, rfl, rfl⟩

/-! ### Call-trace extension lemmas -/

theorem calls_keep_pairs (n : ℕ) (l : List FineTuneStepResults)
    (r : FineTuneStepResults) (i : ℕ) (pc : List (ℕ × ℕ))
    (hold : ∀ p ∈ pc, 1 ≤ p.1 ∧ p.1 < l.length ∧
      p.2 = (p.1 - skippedUpTo l p.1) / n) :
    ∀ p ∈ pc, 1 ≤ p.1 ∧ p.1 < (appendStep i r l).length ∧
      p.2 = (p.1 - skippedUpTo (appendStep i r l) p.1) / n := by
  intro p hp
  obtain ⟨h1, h2, h3⟩ := hold p hp
  refine ⟨h1, by rw [appendStep_length]; omega, ?_⟩
  rw [skippedUpTo_appendStep _ _ _ _ h2]
  exact h3

theorem calls_extend_pairs (n : ℕ) (l : List FineTuneStepResults)
    (r : FineTuneStepResults) (c : ℕ) (pc : List (ℕ × ℕ))
    (hlen : 1 ≤ l.length)
    (hc : c = (l.length -
      ((appendStep l.length r l).filter
        (fun x => x.optimizer_step_skipped)).length) / n)
    (hold : ∀ p ∈ pc, 1 ≤ p.1 ∧ p.1 < l.length ∧
      p.2 = (p.1 - skippedUpTo l p.1) / n) :
    ∀ p ∈ pc ++ [(l.length, c)],
      1 ≤ p.1 ∧ p.1 < (appendStep l.length r l).length ∧
      p.2 = (p.1 - skippedUpTo (appendStep l.length r l) p.1) / n := by
  intro p hp
  rw [List.mem_append] at hp
  rcases hp with hp | hp
  · exact calls_keep_pairs n l r l.length pc hold p hp
  · rw [List.mem_singleton] at hp
    subst hp
    refine ⟨hlen, by rw [appendStep_length]; omega, ?_⟩
    show c = (l.length - skippedUpTo (appendStep l.length r l) l.length) / n
    rw [skippedUpTo_of_length_le _ _ (by rw [appendStep_length])]
    exact hc

theorem calls_keep_triples (n : ℕ) (l : List FineTuneStepResults)
    (r : FineTuneStepResults) (i : ℕ) (ec : List (ℕ × ℕ × Bool))
    (hold : ∀ e ∈ ec, 1 ≤ e.1 ∧ e.1 < l.length ∧
      e.2.1 = (e.1 - skippedUpTo l e.1) / n) :
    ∀ e ∈ ec, 1 ≤ e.1 ∧ e.1 < (appendStep i r l).length ∧
      e.2.1 = (e.1 - skippedUpTo (appendStep i r l) e.1) / n := by
  intro e he
  obtain ⟨h1, h2, h3⟩ := hold e he
  refine ⟨h1, by rw [appendStep_length]; omega, ?_⟩
  rw [skippedUpTo_appendStep _ _ _ _ h2]
  exact h3

theorem calls_extend_triples (n : ℕ) (l : List FineTuneStepResults)
    (r : FineTuneStepResults) (c : ℕ) (b : Bool) (ec : List (ℕ × ℕ × Bool))
    (hlen : 1 ≤ l.length)
    (hc : c = (l.length -
      ((appendStep l.length r l).filter
        (fun x => x.optimizer_step_skipped)).length) / n)
    (hold : ∀ e ∈ ec, 1 ≤ e.1 ∧ e.1 < l.length ∧
      e.2.1 = (e.1 - skippedUpTo l e.1) / n) :
    ∀ e ∈ ec ++ [(l.length, c, b)],
      1 ≤ e.1 ∧ e.1 < (appendStep l.length r l).length ∧
      e.2.1 = (e.1 - skippedUpTo (appendStep l.length r l) e.1) / n := by
  intro e he
  rw [List.mem_append] at he
  rcases he with he | he
  · exact calls_keep_triples n l r l.length ec hold e he
  · rw [List.mem_singleton] at he
    subst he
    refine ⟨hlen, by rw [appendStep_length]; omega, ?_⟩
    show c = (l.length - skippedUpTo (appendStep l.length r l) l.length) / n
    rw [skippedUpTo_of_length_le _ _ (by rw [appendStep_length])]
    exact hc

/-! ### Run-level lemmas -/

theorem runLoop_inv (fts : FineTuneSetup) (score : ℚ → ℚ) (L : ℚ) (gpu : Bool)
    (P : LoopState → Prop)
    (hstep : ∀ s o, P s → P (loopIter fts score L gpu s s.ledger.length o).1) :
    ∀ (os : List StepOracle) (s : LoopState), P s →
      P (runLoop fts score L gpu s s.ledger.length os) := by
  intro os
  induction os with
  | nil => intro s hs; simpa [runLoop] using hs
  | cons o rest ih =>
    intro s hs
    rw [runLoop]
    by_cases h2 : (loopIter fts score L gpu s s.ledger.length o).2 = true
    · simp only [h2, if_true]
      exact hstep s o hs
    · simp only [h2, if_false]
      have h3 := hstep s o hs
      have hlen := loopIter_ledger_length fts score L gpu s s.ledger.length o
      have h4 := ih (loopIter fts score L gpu s s.ledger.length o).1 h3
      rw [hlen] at h4
      exact h4

theorem runLoop_take_prefix (fts : FineTuneSetup) (score : ℚ → ℚ) (L : ℚ)
    (gpu : Bool) :
    ∀ (os : List StepOracle) (s : LoopState) (i : ℕ), 2 ≤ i →
      (runLoop fts score L gpu s i os).ledger.take s.ledger.length = s.ledger := by
  intro os
  induction os with
  | nil => intro s i h; simp [runLoop]
  | cons o rest ih =>
    intro s i h
    obtain ⟨r, hr⟩ := loopIter_ledger_of_ne_one fts score L gpu s i o (by omega)
    rw [runLoop]
    by_cases h2 : (loopIter fts score L gpu s i o).2 = true
    · simp only [h2, if_true]
      rw [hr, List.take_left]
    · simp only [h2, if_false]
      have hlen := loopIter_ledger_length fts score L gpu s i o
      have h3 := ih (loopIter fts score L gpu s i o).1 (i + 1) (by omega)
      have hle : s.ledger.length ≤ (loopIter fts score L gpu s i o).1.ledger.length := by
        omega
      calc (runLoop fts score L gpu (loopIter fts score L gpu s i o).1 (i + 1)
              rest).ledger.take s.ledger.length
        = ((runLoop fts score L gpu (loopIter fts score L gpu s i o).1 (i + 1)
              rest).ledger.take (loopIter fts score L gpu s i o).1.ledger.length).take
                s.ledger.length := by
            rw [List.take_take]
            congr 1
            omega
      _ = (loopIter fts score L gpu s i o).1.ledger.take s.ledger.length := by rw [h3]
      _ = s.ledger := by rw [hr, List.take_left]

theorem lastValidationLoss_eq (s : LoopState) (h : s.ledger ≠ []) :
    lastValidationLoss s =
      (s.ledger.getD (s.ledger.length - 1) dummyRec).validation_loss := by
  unfold lastValidationLoss
  rw [List.getLast?_eq_getElem?, List.getD_eq_getElem?_getD]
  cases hx : s.ledger[s.ledger.length - 1]? with
  | none =>
    exfalso
    rw [List.getElem?_eq_none_iff] at hx
    have := List.length_pos.mpr h
    omega
  | some x => simp

theorem savesInv_loopIter (fts : FineTuneSetup) (score : ℚ → ℚ) (L : ℚ)
    (gpu : Bool) (v0 : ℚ) (s : LoopState) (i : ℕ) (o : StepOracle)
    (hs : SavesInv v0 s) : SavesInv v0 (loopIter fts score L gpu s i o).1 := by
  obtain ⟨h1, h2, h3⟩ := hs
  have happ : ∀ z : ℚ, (s.saves ++ [z]).head? = some v0 := by
    intro z
    cases hsv : s.saves with
    | nil => rw [hsv] at h1; exact absurd h1 (by simp)
    | cons a tl =>
      rw [hsv] at h1
      simpa using h1
  simp only [loopIter]
  split
  · exact ⟨h1, h2, h3⟩
  · split
    · by_cases hb : o.val_loss < s.best_validation_loss
      · have hdec : decide (o.val_loss < s.best_validation_loss) = true :=
          decide_eq_true hb
        refine ⟨?_, ?_, ?_⟩
        · show (if decide (o.val_loss < s.best_validation_loss) = true
              then s.saves ++ [o.val_loss] else s.saves).head? = some v0
          rw [hdec, if_pos rfl]
          exact happ _
        · show List.Chain' (fun a b : ℚ => b < a)
            (if decide (o.val_loss < s.best_validation_loss) = true
              then s.saves ++ [o.val_loss] else s.saves)
          rw [hdec, if_pos rfl]
          refine List.chain'_append.mpr ⟨h2, List.chain'_singleton _, ?_⟩
          intro x hx y hy
          rw [h3, Option.mem_def, Option.some_inj] at hx
          simp only [List.head?_cons, Option.mem_def, Option.some_inj] at hy
          subst hx
          subst hy
          exact hb
        · show (if decide (o.val_loss < s.best_validation_loss) = true
              then s.saves ++ [o.val_loss] else s.saves).getLast? =
            some (if decide (o.val_loss < s.best_validation_loss) = true
              then o.val_loss else s.best_validation_loss)
          rw [hdec, if_pos rfl, if_pos rfl]
          exact List.getLast?_concat _
      · have hdec : decide (o.val_loss < s.best_validation_loss) = false := by
          simpa using hb
        refine ⟨?_, ?_, ?_⟩
        · show (if decide (o.val_loss < s.best_validation_loss) = true
              then s.saves ++ [o.val_loss] else s.saves).head? = some v0
          rw [hdec]
          simpa using h1
        · show List.Chain' (fun a b : ℚ => b < a)
            (if decide (o.val_loss < s.best_validation_loss) = true
              then s.saves ++ [o.val_loss] else s.saves)
          rw [hdec]
          simpa using h2
        · show (if decide (o.val_loss < s.best_validation_loss) = true
              then s.saves ++ [o.val_loss] else s.saves).getLast? =
            some (if decide (o.val_loss < s.best_validation_loss) = true
              then o.val_loss else s.best_validation_loss)
          rw [hdec]
          simpa using h3
    · exact ⟨h1, h2, h3⟩

theorem traceInv_loopIter (fts : FineTuneSetup) (score : ℚ → ℚ) (L : ℚ)
    (gpu : Bool) (s : LoopState) (o : StepOracle)
    (hs : TraceInv fts.update_every_n_steps s) :
    TraceInv fts.update_every_n_steps
      (loopIter fts score L gpu s s.ledger.length o).1 := by
  obtain ⟨hlen, hskip, hzero, hvs, hpc, hec, hcarry⟩ := hs
  obtain ⟨r, hr, hrskip, hrval, hrstep⟩ :=
    loopIter_ledger_record fts score L gpu s s.ledger.length o
  have hL := loopIter_ledger_length fts score L gpu s s.ledger.length o
  have hSS := loopIter_skipped_steps fts score L gpu s s.ledger.length o
  have hVS := loopIter_validatedSteps fts score L gpu s s.ledger.length o
  have hPC := loopIter_patienceCalls fts score L gpu s s.ledger.length o
  have hEC := loopIter_esCalls fts score L gpu s s.ledger.length o
  have hgd : ∀ j, ledgerEntry (loopIter fts score L gpu s s.ledger.length o).1 j =
      (appendStep s.ledger.length r s.ledger).getD j dummyRec := by
    intro j
    simp only [ledgerEntry, hr]
  have hmid : ∀ j, 1 ≤ j → j < s.ledger.length →
      ledgerEntry (loopIter fts score L gpu s s.ledger.length o).1 j =
        ledgerEntry s j := by
    intro j h1 h2
    rw [hgd]
    exact appendStep_getD_mid _ _ _ _ h1 h2
  have hlastE : ledgerEntry (loopIter fts score L gpu s s.ledger.length o).1
      s.ledger.length = r := by
    rw [hgd]
    exact appendStep_getD_last _ _ _ (by omega)
  have hzeroE := appendStep_getD_zero s.ledger.length r s.ledger (by omega)
  have hcount : ((appendStep s.ledger.length r s.ledger).filter
      (fun x => x.optimizer_step_skipped)).length =
      s.skipped_steps +
        (if stepSkipped fts gpu s.ledger.length o then 1 else 0) := by
    rw [filter_skipped_appendStep_length, ← hskip, hrskip]
  have hnewskip : newSkipped fts gpu s s.ledger.length o =
      s.skipped_steps +
        (if stepSkipped fts gpu s.ledger.length o then 1 else 0) := by
    unfold newSkipped
    split <;> simp
  have hcur : curRound fts gpu s s.ledger.length o =
      (s.ledger.length - ((appendStep s.ledger.length r s.ledger).filter
        (fun x => x.optimizer_step_skipped)).length) / fts.update_every_n_steps := by
    unfold curRound
    rw [hnewskip, hcount]
  refine ⟨?_, ?_, ?_, ?_, ?_, ?_, ?_⟩
  · rw [hL]
    omega
  · rw [hSS, hr, hcount, hnewskip]
  · show (ledgerEntry (loopIter fts score L gpu s s.ledger.length o).1
      0).optimizer_step_skipped = false
    rw [hgd]
    rw [hzeroE.2]
    exact hzero
  · rw [hVS]
    by_cases hval : stepValidates fts gpu s.ledger.length o = true
    · rw [if_pos hval]
      intro j hj
      rw [List.mem_append] at hj
      rcases hj with hj | hj
      · obtain ⟨g1, g2, g3⟩ := hvs j hj
        refine ⟨g1, by rw [hL]; omega, ?_⟩
        rw [hmid j g1 g2]
        exact g3
      · rw [List.mem_singleton] at hj
        subst hj
        refine ⟨hlen, by rw [hL]; omega, ?_⟩
        rw [hlastE, hrskip]
        exact stepValidates_not_skipped fts gpu s.ledger.length o hval
    · rw [if_neg hval]
      intro j hj
      obtain ⟨g1, g2, g3⟩ := hvs j hj
      refine ⟨g1, by rw [hL]; omega, ?_⟩
      rw [hmid j g1 g2]
      exact g3
  · rw [hPC]
    have hext := calls_extend_pairs fts.update_every_n_steps s.ledger r
      (curRound fts gpu s s.ledger.length o) s.patienceCalls hlen hcur hpc
    intro p hp
    obtain ⟨g1, g2, g3⟩ := hext p hp
    refine ⟨g1, ?_, ?_⟩
    · rw [hL, appendStep_length] at *
      omega
    · rw [hr]
      exact g3
  · rw [hEC]
    by_cases hval : stepValidates fts gpu s.ledger.length o = true
    · rw [if_pos hval]
      have hext := calls_extend_triples fts.update_every_n_steps s.ledger r
        (curRound fts gpu s s.ledger.length o)
        (decide (o.val_loss < s.best_validation_loss)) s.esCalls hlen hcur hec
      intro e he
      obtain ⟨g1, g2, g3⟩ := hext e he
      refine ⟨g1, ?_, ?_⟩
      · rw [hL]
        rw [appendStep_length] at g2
        omega
      · rw [hr]
        exact g3
    · rw [if_neg hval]
      have hext := calls_keep_triples fts.update_every_n_steps s.ledger r
        s.ledger.length s.esCalls hec
      intro e he
      obtain ⟨g1, g2, g3⟩ := hext e he
      refine ⟨g1, ?_, ?_⟩
      · rw [hL]
        rw [appendStep_length] at g2
        omega
      · rw [hr]
        exact g3
  · intro j hj1 hj2 hj3
    rw [hL] at hj2
    by_cases hji : j < s.ledger.length
    · have hj3old : ¬ j ∈ s.validatedSteps := by
        intro hmem
        apply hj3
        rw [hVS]
        by_cases hval : stepValidates fts gpu s.ledger.length o = true
        · rw [if_pos hval]
          exact List.mem_append.mpr (Or.inl hmem)
        · rw [if_neg hval]
          exact hmem
      have e2 : (ledgerEntry (loopIter fts score L gpu s s.ledger.length o).1
          (j - 1)).validation_loss = (ledgerEntry s (j - 1)).validation_loss := by
        rcases Nat.eq_zero_or_pos (j - 1) with h0 | hpos2
        · rw [h0, hgd]
          exact hzeroE.1
        · rw [hmid (j - 1) (by omega) (by omega)]
      rw [hmid j hj1 hji, e2]
      exact hcarry j hj1 hji hj3old
    · have hje : j = s.ledger.length := by omega
      subst hje
      by_cases hval : stepValidates fts gpu s.ledger.length o = true
      · exfalso
        apply hj3
        rw [hVS, if_pos hval]
        exact List.mem_append.mpr (Or.inr (List.mem_singleton.mpr rfl))
      · have hrv : r.validation_loss = lastValidationLoss s := by
          rw [hrval, if_neg hval]
        have eP : (ledgerEntry (loopIter fts score L gpu s s.ledger.length o).1
            (s.ledger.length - 1)).validation_loss =
            (ledgerEntry s (s.ledger.length - 1)).validation_loss := by
          rcases Nat.eq_zero_or_pos (s.ledger.length - 1) with h0 | hpos2
          · rw [h0, hgd]
            exact hzeroE.1
          · rw [hmid (s.ledger.length - 1) (by omega) (by omega)]
        rw [hlastE, eP, hrv,
          lastValidationLoss_eq s (List.length_pos.mp (by omega))]
        rfl

theorem foldr_max_le (l : List ℕ) (b : ℕ) (h : ∀ x ∈ l, x ≤ b) :
    l.foldr max 0 ≤ b := by
  induction l with
  | nil => simp
  | cons a as ih =>
    simp only [List.foldr_cons]
    exact max_le (h a (by simp)) (ih (fun x hx => h x (by simp [hx])))

theorem le_foldr_max (l : List ℕ) (x : ℕ) (h : x ∈ l) : x ≤ l.foldr max 0 := by
  induction l with
  | nil => simp at h
  | cons a as ih =>
    simp only [List.foldr_cons]
    rcases List.mem_cons.mp h with rfl | h2
    · exact le_max_left _ _
    · exact le_trans (ih h2) (le_max_right _ _)

theorem anchor_of_traceInv (n : ℕ) (s : LoopState) (hs : TraceInv n s) :
    ∀ j, j < s.ledger.length →
      (ledgerEntry s j).validation_loss =
        (ledgerEntry s (lastValidating s.validatedSteps j)).validation_loss := by
  obtain ⟨hlen, hskip, hzero, hvs, hpc, hec, hcarry⟩ := hs
  intro j
  induction j using Nat.strong_induction_on with
  | _ j ih =>
    intro hj
    by_cases hmem : j ∈ s.validatedSteps
    · have hlv : lastValidating s.validatedSteps j = j := by
        apply le_antisymm
        · apply foldr_max_le
          intro x hx
          rw [List.mem_filter] at hx
          exact of_decide_eq_true hx.2
        · apply le_foldr_max
          rw [List.mem_filter]
          exact ⟨hmem, by simp⟩
      rw [hlv]
    · rcases Nat.eq_zero_or_pos j with h0 | hpos
      · subst h0
        have hlv0 : lastValidating s.validatedSteps 0 = 0 := by
          unfold lastValidating
          have hf : s.validatedSteps.filter (fun x => decide (x ≤ 0)) = [] := by
            rw [List.filter_eq_nil_iff]
            intro a ha
            have h1 := (hvs a ha).1
            simp only [decide_eq_true_eq]
            omega
          rw [hf]
          rfl
        rw [hlv0]
      · have hstep : lastValidating s.validatedSteps j =
            lastValidating s.validatedSteps (j - 1) := by
          unfold lastValidating
          congr 1
          apply List.filter_congr
          intro x hx
          have hne : x ≠ j := fun he => hmem (he ▸ hx)
          simp only [decide_eq_decide]
          omega
        rw [hcarry j hpos hj hmem, hstep]
        exact ih (j - 1) (by omega) (by omega)

/-! ### Claim theorems -/

/-- C2: on a run of the loop, a step whose record carries
`optimizer_step_skipped = True` never appears among the validated steps
(validation is suppressed regardless of cadence), and every round number
passed to the early-stopping `update` and to `remaining_patience` equals
`(step_i - skipped_steps) // update_every_n_steps`, where `skipped_steps`
is the accumulated count of skipped steps up to and including that step —
so rounds lag the unskipped count by the skipped steps. -/
theorem c2_skipped_steps_semantics (es0 : AdaptiveES) (fts : FineTuneSetup)
    (score : ℚ → ℚ) (L v0 util : ℚ) (gpu : Bool) (oracles : List StepOracle) :
    let F := finalState es0 fts score L v0 gpu util oracles
    (∀ j, (ledgerEntry F j).optimizer_step_skipped = true →
      ¬ j ∈ F.validatedSteps) ∧
    (∀ p ∈ F.patienceCalls,
      p.2 = (p.1 - skippedUpTo F.ledger p.1) / fts.update_every_n_steps) ∧
    (∀ e ∈ F.esCalls,
      e.2.1 = (e.1 - skippedUpTo F.ledger e.1) / fts.update_every_n_steps) := by
  have hinit : TraceInv fts.update_every_n_steps
      (initState es0 score L v0 gpu util) := by
    refine ⟨Nat.le.refl, rfl, rfl, ?_, ?_, ?_, ?_⟩
    · intro j hj
      exact absurd hj (List.not_mem_nil _)
    · intro p hp
      exact absurd hp (List.not_mem_nil _)
    · intro e he
      exact absurd he (List.not_mem_nil _)
    · intro j hj1 hj2 hj3
      have : j < 1 := hj2
      omega
  have hrun := runLoop_inv fts score L gpu (TraceInv fts.update_every_n_steps)
    (fun s o hs => traceInv_loopIter fts score L gpu s o hs)
    oracles (initState es0 score L v0 gpu util) hinit
  have hrunF : TraceInv fts.update_every_n_steps
      (finalState es0 fts score L v0 gpu util oracles) := hrun
  obtain ⟨hlen, hskip, hzero, hvs, hpc, hec, hcarry⟩ := hrunF
  refine ⟨?_, ?_, ?_⟩
  · intro j hflag hmem
    have g3 := (hvs j hmem).2.2
    rw [g3] at hflag
    exact absurd hflag (by simp)
  · intro p hp
    exact (hpc p hp).2.2
  · intro e he
    exact (hec e he).2.2

/-- C3: on a run of the loop, every ledger entry appended at a step on
which no validation ran carries the validation loss of the immediately
preceding ledger entry, and hence every entry's validation loss equals the
one recorded at the most recent validating step at or before it (the
index-0 baseline when no step validated yet). -/
theorem c3_validation_carry_forward (es0 : AdaptiveES) (fts : FineTuneSetup)
    (score : ℚ → ℚ) (L v0 util : ℚ) (gpu : Bool) (oracles : List StepOracle) :
    let F := finalState es0 fts score L v0 gpu util oracles
    (∀ j, 1 ≤ j → j < F.ledger.length → ¬ j ∈ F.validatedSteps →
      (ledgerEntry F j).validation_loss =
        (ledgerEntry F (j - 1)).validation_loss) ∧
    (∀ j, j < F.ledger.length →
      (ledgerEntry F j).validation_loss =
        (ledgerEntry F (lastValidating F.validatedSteps j)).validation_loss) := by
  have hinit : TraceInv fts.update_every_n_steps
      (initState es0 score L v0 gpu util) := by
    refine ⟨Nat.le.refl, rfl, rfl, ?_, ?_, ?_, ?_⟩
    · intro j hj
      exact absurd hj (List.not_mem_nil _)
    · intro p hp
      exact absurd hp (List.not_mem_nil _)
    · intro e he
      exact absurd he (List.not_mem_nil _)
    · intro j hj1 hj2 hj3
      have : j < 1 := hj2
      omega
  have hrun := runLoop_inv fts score L gpu (TraceInv fts.update_every_n_steps)
    (fun s o hs => traceInv_loopIter fts score L gpu s o hs)
    oracles (initState es0 score L v0 gpu util) hinit
  have hrunF : TraceInv fts.update_every_n_steps
      (finalState es0 fts score L v0 gpu util oracles) := hrun
  refine ⟨?_, ?_⟩
  · exact hrunF.2.2.2.2.2.2
  · exact anchor_of_traceInv fts.update_every_n_steps _ hrunF

/-- C4: the checkpoint is written once unconditionally right after the
baseline validation (the first entry of the save trace is the baseline
loss), every later write happens only on strict improvement, and hence the
loss associated with the saved model strictly decreases across saves (in
particular it is monotonically non-increasing); the last save always equals
the best loss known to the loop. -/
theorem c4_checkpoint_monotone (es0 : AdaptiveES) (fts : FineTuneSetup)
    (score : ℚ → ℚ) (L v0 util : ℚ) (gpu : Bool) (oracles : List StepOracle) :
    let F := finalState es0 fts score L v0 gpu util oracles
    F.saves.head? = some v0 ∧
    List.Chain' (fun a b : ℚ => b < a) F.saves ∧
    F.saves.getLast? = some F.best_validation_loss := by
  have hinit : SavesInv v0 (initState es0 score L v0 gpu util) :=
    ⟨rfl, List.chain'_singleton _, rfl⟩
  have hrun := runLoop_inv fts score L gpu (SavesInv v0)
    (fun s o hs => savesInv_loopIter fts score L gpu v0 s s.ledger.length o hs)
    oracles (initState es0 score L v0 gpu util) hinit
  exact hrun

/-- C6: with gradient accumulation active (width `g > 1`), the loss handed to
the backward pass is the computed batch loss divided by `g`, and the
training loss reported in the step's record is that divided loss multiplied
back by `g`, which round-trips to the raw batch loss. -/
theorem c6_grad_accum_roundtrip (o : StepOracle) (g : ℕ) (u gpu : Bool)
    (h : 1 < g) :
    gradAccumOf g = some g ∧
    fineTuneStepLoss o.batch_loss (gradAccumOf g) = o.batch_loss / (g : ℚ) ∧
    (fine_tune_step o (gradAccumOf g) u gpu).training_loss =
      o.batch_loss / (g : ℚ) * (g : ℚ) ∧
    (fine_tune_step o (gradAccumOf g) u gpu).training_loss = o.batch_loss := by
  have hg : gradAccumOf g = some g := by simp [gradAccumOf, h]
  have hgz : (g : ℚ) ≠ 0 := Nat.cast_ne_zero.mpr (by omega)
  refine ⟨hg, ?_, ?_, ?_⟩
  · rw [hg]
    rfl
  · rw [hg]
    rfl
  · rw [hg]
    show o.batch_loss / (g : ℚ) * (g : ℚ) = o.batch_loss
    exact div_mul_cancel₀ _ hgz

/-- Witness for C6 at accumulation width 2 and the sample oracle. -/
theorem c6_grad_accum_roundtrip_witness :
    gradAccumOf 2 = some 2 ∧
    fineTuneStepLoss sampleOracle.batch_loss (gradAccumOf 2) =
      sampleOracle.batch_loss / (2 : ℚ) ∧
    (fine_tune_step sampleOracle (gradAccumOf 2) true false).training_loss =
      sampleOracle.batch_loss / (2 : ℚ) * (2 : ℚ) ∧
    (fine_tune_step sampleOracle (gradAccumOf 2) true false).training_loss =
      sampleOracle.batch_loss :=
  c6_grad_accum_roundtrip sampleOracle 2 true false (by norm_num)

/-- C9: for `update_every_n_steps = n ≥ 2`, with the loop's step index
starting at 1 and an update firing when `(step_i + 1) % n == 0`, the first
optimizer update happens at step `n - 1` (after only `n - 1` accumulated
batches), every later update window spans exactly `n` steps, and each
batch's loss is divided by `n`. -/
theorem c9_update_cadence (n : ℕ) (h : 2 ≤ n) :
    updateNow n (n - 1) = true ∧
    (∀ i, 1 ≤ i → i < n - 1 → updateNow n i = false) ∧
    (∀ i, updateNow n i = true →
      (updateNow n (i + n) = true ∧ ∀ j, i < j → j < i + n → updateNow n j = false)) ∧
    gradAccumOf n = some n ∧
    (∀ b : ℚ, fineTuneStepLoss b (gradAccumOf n) = b / (n : ℚ)) := by
  have hga : gradAccumOf n = some n := by
    simp only [gradAccumOf, if_pos (show 1 < n by omega)]
  refine ⟨?_, ?_, ?_, hga, ?_⟩
  · unfold updateNow
    rw [show n - 1 + 1 = n by omega, Nat.mod_self]
    rfl
  · intro i h1 h2
    unfold updateNow
    rw [Nat.mod_eq_of_lt (by omega)]
    simp only [beq_eq_false_iff_ne, ne_eq]
    omega
  · intro i hi
    have hdvd : n ∣ i + 1 := by
      apply Nat.dvd_of_mod_eq_zero
      simpa [updateNow] using hi
    constructor
    · unfold updateNow
      rw [show i + n + 1 = i + 1 + n by omega, Nat.add_mod_right]
      simpa [updateNow] using hi
    · intro j hj1 hj2
      unfold updateNow
      simp only [beq_eq_false_iff_ne, ne_eq]
      intro hc
      have hdvd2 : n ∣ j + 1 := Nat.dvd_of_mod_eq_zero hc
      have hsub : n ∣ (j + 1) - (i + 1) := Nat.dvd_sub' hdvd2 hdvd
      have hle : n ≤ (j + 1) - (i + 1) := Nat.le_of_dvd (by omega) hsub
      omega
  · intro b
    rw [hga]
    rfl

/-- Witness for C9 at `n = 3`. -/
theorem c9_update_cadence_witness :
    updateNow 3 (3 - 1) = true ∧
    (∀ i, 1 ≤ i → i < 3 - 1 → updateNow 3 i = false) ∧
    (∀ i, updateNow 3 i = true →
      (updateNow 3 (i + 3) = true ∧ ∀ j, i < j → j < i + 3 → updateNow 3 j = false)) ∧
    gradAccumOf 3 = some 3 ∧
    (∀ b : ℚ, fineTuneStepLoss b (gradAccumOf 3) = b / (3 : ℚ)) :=
  c9_update_cadence 3 (by norm_num)

/-- C10: if the data loader yields zero batches the run completes normally:
the ledger keeps exactly the index-0 baseline record with training loss 0.0
and validation loss equal to the baseline loss, the checkpoint trace holds
exactly the unconditional initial save, neither termination flag is set,
and the final report has best step 0. -/
theorem c10_empty_loader_completes (es0 : AdaptiveES) (fts : FineTuneSetup)
    (score : ℚ → ℚ) (L v0 util : ℚ) (gpu : Bool) :
    let F := finalState es0 fts score L v0 gpu util []
    F.ledger.length = 1 ∧
    (ledgerEntry F 0).training_loss = 0 ∧
    (ledgerEntry F 0).validation_loss = v0 ∧
    F.saves = [v0] ∧
    F.early_stop_no_imp = false ∧
    F.early_stop_no_time = false ∧
    (tore_down_tuning F).best_step = 0 ∧
    (tore_down_tuning F).total_steps = 1 ∧
    (tore_down_tuning F).es_reason = none :=
  ⟨rfl, rfl, rfl, rfl, rfl, rfl, rfl, rfl, rfl⟩

/-- The first iteration of a run determines the whole run when only one
batch exists or when it breaks. -/
theorem finalState_singleton (es0 : AdaptiveES) (fts : FineTuneSetup)
    (score : ℚ → ℚ) (L v0 util : ℚ) (gpu : Bool) (o : StepOracle) :
    finalState es0 fts score L v0 gpu util [o] =
      (loopIter fts score L gpu (initState es0 score L v0 gpu util) 1 o).1 := by
  simp only [finalState, runLoop]
  split <;> rfl

/-- C5 counterexample: a run whose remaining time (11) is exactly `1.1`
times the average time per step (10/1): the code sets the time-based
termination flag (it compares with `<=`), while the claim's condition —
remaining time `≤ 0` or *strictly less* than the margin — is false. -/
theorem c5_counterexample :
    (finalState sampleES sampleFTS idScore 21 7 false 0
        [sampleOracle]).early_stop_no_time = true ∧
    ¬(((21 : ℚ) - 10 ≤ 0) ∨ ((21 : ℚ) - 10 < 10 / (1 : ℚ) * (11/10))) := by
  constructor
  · rw [finalState_singleton, loopIter_no_time]
    norm_num [sampleOracle]
  · norm_num

/-- C5 amended: the time-based termination flag is set iff the remaining
time is `≤ 0` or `≤` (not strictly less than) `1.1` times the average time
per step so far; when set, the loop terminates right after appending that
step's record. -/
theorem c5_time_guard (fts : FineTuneSetup) (score : ℚ → ℚ) (L : ℚ)
    (gpu : Bool) (s : LoopState) (i : ℕ) (o : StepOracle) :
    let F := (loopIter fts score L gpu s i o).1
    (F.early_stop_no_time = true ↔
      (L - o.time_spent ≤ 0 ∨
        L - o.time_spent ≤ o.time_spent / (i : ℚ) * (11/10))) ∧
    F.ledger.length = s.ledger.length + 1 ∧
    (∀ rest, F.early_stop_no_time = true →
      runLoop fts score L gpu s i (o :: rest) = F) := by
  have hiff : (loopIter fts score L gpu s i o).1.early_stop_no_time = true ↔
      (L - o.time_spent ≤ 0 ∨
        L - o.time_spent ≤ o.time_spent / (i : ℚ) * (11/10)) := by
    rw [loopIter_no_time]
    simp
  have hrun : ∀ rest, (loopIter fts score L gpu s i o).1.early_stop_no_time = true →
      runLoop fts score L gpu s i (o :: rest) =
        (loopIter fts score L gpu s i o).1 := by
    intro rest hstop
    have hbreak : (loopIter fts score L gpu s i o).2 = true := by
      rw [loopIter_break, hstop, Bool.or_true]
    simp only [runLoop]
    rw [hbreak]
    simp
  exact ⟨hiff, loopIter_ledger_length fts score L gpu s i o, hrun⟩

/-- C1 counterexample: `time_limit = 1` is smaller than the 10 seconds the
first training step takes, yet the run's ledger has 2 records — the
baseline and the record of step 1 — so one training step executed, not
zero (the time check runs only after a step completes). -/
theorem c1_counterexample :
    (1 : ℚ) < sampleOracle.time_spent ∧
    (finalState sampleES sampleFTS idScore 1 7 false 0 [sampleOracle]).ledger.length = 2 ∧
    ¬((finalState sampleES sampleFTS idScore 1 7 false 0 [sampleOracle]).ledger.length = 1) := by
  have h2 : (finalState sampleES sampleFTS idScore 1 7 false 0
      [sampleOracle]).ledger.length = 2 := by
    rw [finalState_singleton, loopIter_ledger_length]
    rfl
  exact ⟨by norm_num [sampleOracle], h2, by rw [h2]; norm_num⟩

/-- C1 amended: if the time limit is exhausted before the first step's time
check (in particular whenever `time_limit` is smaller than the duration of
one training step), the loop terminates right after the first training
step: exactly one step executes, and the reported reason is the "no time"
one. -/
theorem c1_no_time_stops_after_first_step (es0 : AdaptiveES)
    (fts : FineTuneSetup) (score : ℚ → ℚ) (L v0 util : ℚ) (gpu : Bool)
    (o : StepOracle) (rest : List StepOracle) (h : L < o.time_spent) :
    let F := finalState es0 fts score L v0 gpu util (o :: rest)
    F.ledger.length = 2 ∧
    F.early_stop_no_time = true ∧
    (tore_down_tuning F).total_steps = 2 ∧
    (tore_down_tuning F).es_reason = some "Early stopping due no time." := by
  have hnt : (loopIter fts score L gpu (initState es0 score L v0 gpu util)
      1 o).1.early_stop_no_time = true := by
    rw [loopIter_no_time]
    simp only [Bool.or_eq_true, decide_eq_true_eq]
    left
    linarith
  have hbr : (loopIter fts score L gpu (initState es0 score L v0 gpu util) 1 o).2
      = true := by
    rw [loopIter_break, hnt, Bool.or_true]
  have hF : finalState es0 fts score L v0 gpu util (o :: rest) =
      (loopIter fts score L gpu (initState es0 score L v0 gpu util) 1 o).1 := by
    simp only [finalState, runLoop]
    rw [hbr]
    simp
  have hlen : (loopIter fts score L gpu (initState es0 score L v0 gpu util)
      1 o).1.ledger.length = 2 := by
    rw [loopIter_ledger_length]
    rfl
  refine ⟨?_, ?_, ?_, ?_⟩
  · rw [hF]
    exact hlen
  · rw [hF]
    exact hnt
  · show (finalState es0 fts score L v0 gpu util (o :: rest)).ledger.length = 2
    rw [hF]
    exact hlen
  · show esReason _ _ = _
    rw [hF]
    show esReason _ ((loopIter fts score L gpu (initState es0 score L v0 gpu util)
      1 o).1.early_stop_no_time) = _
    rw [hnt]
    rfl

/-- Witness for C1's amended theorem: the concrete run of the C1
counterexample input, where the time limit 1 is below the 10 seconds the
first (and only) batch takes. -/
theorem c1_no_time_stops_after_first_step_witness :
    let F := finalState sampleES sampleFTS idScore 1 7 false 0 [sampleOracle]
    F.ledger.length = 2 ∧
    F.early_stop_no_time = true ∧
    (tore_down_tuning F).total_steps = 2 ∧
    (tore_down_tuning F).es_reason = some "Early stopping due no time." :=
  c1_no_time_stops_after_first_step sampleES sampleFTS idScore 1 7 0 false
    sampleOracle [] (by norm_num [sampleOracle])

/-- C8 counterexample: a call that supplies an already fitted
`model_for_validation` but leaves `use_sklearn_interface_for_validation`
off completes without any error. -/
theorem c8_counterexample :
    (fine_tune_tabpfn false (some true) sampleES sampleFTS idScore 100 7 false 0
      []).isOk = true := rfl

/-- C8 amended: when `use_sklearn_interface_for_validation` is on and the
caller supplies an already fitted `model_for_validation`, the call fails at
setup with the configuration error, before the baseline validation, the
initial checkpoint write and the loop, whatever the rest of the inputs. -/
theorem c8_fitted_model_rejected (es0 : AdaptiveES) (fts : FineTuneSetup)
    (score : ℚ → ℚ) (L v0 util : ℚ) (gpu : Bool) (oracles : List StepOracle) :
    fine_tune_tabpfn true (some true) es0 fts score L v0 gpu util oracles =
      Except.error "model_for_validation must NOT be fitted" := rfl

/-- C7: one loop iteration appends exactly one record (step `i`'s); every
already-appended record at index `>= 1` is left untouched; the index-0
record is left untouched unless `i = 1`, in which case it changes only in
its training-loss field, which receives step 1's training loss; and once
the loop is past step 1 (step index `>= 2`) the whole existing ledger is a
frozen prefix of every later ledger. -/
theorem c7_ledger_frame (fts : FineTuneSetup) (score : ℚ → ℚ) (L : ℚ)
    (gpu : Bool) (s : LoopState) (i : ℕ) (o : StepOracle)
    (h : s.ledger ≠ []) :
    let F := (loopIter fts score L gpu s i o).1
    F.ledger.length = s.ledger.length + 1 ∧
    (ledgerEntry F s.ledger.length).step_index = i ∧
    (∀ j, 1 ≤ j → j < s.ledger.length → ledgerEntry F j = ledgerEntry s j) ∧
    (i ≠ 1 → ledgerEntry F 0 = ledgerEntry s 0) ∧
    (i = 1 → ledgerEntry F 0 =
      { ledgerEntry s 0 with
          training_loss := (ledgerEntry F s.ledger.length).training_loss }) ∧
    (∀ os, 2 ≤ i →
      (runLoop fts score L gpu s i os).ledger.take s.ledger.length = s.ledger) := by
  intro F
  obtain ⟨r, hr, hstep⟩ := loopIter_ledger_shape fts score L gpu s i o
  have hpos : 0 < s.ledger.length := List.length_pos.mpr h
  have hlast : ledgerEntry F s.ledger.length = r := by
    show (loopIter fts score L gpu s i o).1.ledger.getD s.ledger.length dummyRec = r
    rw [hr]
    exact appendStep_getD_last i r s.ledger hpos
  refine ⟨loopIter_ledger_length fts score L gpu s i o, ?_, ?_, ?_, ?_, ?_⟩
  · rw [hlast]
    exact hstep
  · intro j h1 h2
    show (loopIter fts score L gpu s i o).1.ledger.getD j dummyRec =
      s.ledger.getD j dummyRec
    rw [hr]
    exact appendStep_getD_mid i r s.ledger j h1 h2
  · intro hne
    show (loopIter fts score L gpu s i o).1.ledger.getD 0 dummyRec =
      s.ledger.getD 0 dummyRec
    rw [hr]
    unfold appendStep
    rw [if_neg hne]
    exact List.getD_append _ _ _ _ hpos
  · intro he
    rw [hlast]
    show (loopIter fts score L gpu s i o).1.ledger.getD 0 dummyRec =
      { s.ledger.getD 0 dummyRec with training_loss := r.training_loss }
    rw [hr, he]
    cases hl : s.ledger with
    | nil => exact absurd hl h
    | cons r0 rest =>
      simp [appendStep, backfillHead]
  · intro os h2
    exact runLoop_take_prefix fts score L gpu os s i h2

/-- Witness for C7 at a concrete state and step. -/
theorem c7_ledger_frame_witness :
    let F := (loopIter sampleFTS idScore 100 false sampleInit 1 sampleOracle).1
    F.ledger.length = sampleInit.ledger.length + 1 ∧
    (ledgerEntry F sampleInit.ledger.length).step_index = 1 ∧
    (∀ j, 1 ≤ j → j < sampleInit.ledger.length →
      ledgerEntry F j = ledgerEntry sampleInit j) ∧
    (1 ≠ 1 → ledgerEntry F 0 = ledgerEntry sampleInit 0) ∧
    (1 = 1 → ledgerEntry F 0 =
      { ledgerEntry sampleInit 0 with
          training_loss := (ledgerEntry F sampleInit.ledger.length).training_loss }) ∧
    (∀ os, 2 ≤ 1 →
      (runLoop sampleFTS idScore 100 false sampleInit 1 os).ledger.take
        sampleInit.ledger.length = sampleInit.ledger) :=
  c7_ledger_frame sampleFTS idScore 100 false sampleInit 1 sampleOracle
    (List.cons_ne_nil _ _)

end FinetuneTabPFN
